import Mathlib

/-!
Verification of the text-metrics engine (word/character/paragraph/sentence
counting, overflow-boundary detection, reading-time estimation, readability
analysis) against its natural-language specification.

Texts are modelled as `List Char`; the JavaScript `number` arguments that can
be negative are modelled as `Int` (or `Rat` where the code divides), and the
bounded scanning loops of the source are modelled as fuel-indexed structural
recursions where the fuel is instantiated with the text length, which is an
upper bound on the number of loop iterations (every iteration consumes at
least one character).
-/

namespace WriteApp

/-- Whitespace per the JavaScript `\s` character class (which is also exactly
the set of characters removed by `String.prototype.trim`): ASCII whitespace,
NBSP, the Unicode space separators, line/paragraph separators and the BOM. -/
def isWs (c : Char) : Bool :=
  let n := c.toNat
  n == 9 || n == 10 || n == 11 || n == 12 || n == 13 || n == 32 ||
  n == 0xa0 || n == 0x1680 || (decide (0x2000 ≤ n) && decide (n ≤ 0x200a)) ||
  n == 0x2028 || n == 0x2029 || n == 0x202f || n == 0x205f ||
  n == 0x3000 || n == 0xfeff

/-- ASCII letter, the `[A-Za-z]` class used by `getWordBeforePeriod`. -/
def isAsciiLetter (c : Char) : Bool :=
  (decide ('A' ≤ c) && decide (c ≤ 'Z')) || (decide ('a' ≤ c) && decide (c ≤ 'z'))

/-- Drop a trailing run of characters satisfying `p` (helper for `trim`). -/
def dropLastWhile (p : Char → Bool) (l : List Char) : List Char :=
  (l.reverse.dropWhile p).reverse

/-- JavaScript `String.prototype.trim`: remove leading and trailing
whitespace. -/
def trim (l : List Char) : List Char :=
  dropLastWhile isWs (l.dropWhile isWs)

/-- Counting loop behind `countWords`: counts the maximal runs of
non-whitespace characters (the matches of `/\S+/g`).  The boolean accumulator
records whether the scan is currently inside such a run. -/
def wordRuns : Bool → List Char → Nat
  | _, [] => 0
  | inWord, c :: r =>
    if isWs c then wordRuns false r
    else (if inWord then 0 else 1) + wordRuns true r

/-- `countWords` from `counter.ts`: trim; empty → 0; otherwise the number of
maximal non-whitespace runs. -/
def countWords (text : List Char) : Nat :=
  let trimmed := trim text
  if trimmed = [] then 0 else wordRuns false trimmed

/-! Basic lemmas about `trim`, membership of non-whitespace characters, and
positivity of the word count. -/

theorem mem_dropWhile_of_neg {p : Char → Bool} {c : Char} :
    ∀ {l : List Char}, c ∈ l → p c = false → c ∈ l.dropWhile p
  | [], h, _ => by cases h
  | a :: r, h, hc => by
    by_cases ha : p a
    · rw [List.dropWhile_cons_of_pos ha]
      rcases List.mem_cons.mp h with rfl | hr
      · rw [ha] at hc; cases hc
      · exact mem_dropWhile_of_neg hr hc
    · rw [List.dropWhile_cons_of_neg ha]
      exact h

theorem mem_trim {c : Char} {l : List Char} (h : c ∈ l) (hc : isWs c = false) :
    c ∈ trim l := by
  unfold trim dropLastWhile
  have h1 : c ∈ l.dropWhile isWs := mem_dropWhile_of_neg h hc
  have h2 : c ∈ (l.dropWhile isWs).reverse := List.mem_reverse.mpr h1
  exact List.mem_reverse.mpr (mem_dropWhile_of_neg h2 hc)

theorem trim_ne_nil {c : Char} {l : List Char} (h : c ∈ l) (hc : isWs c = false) :
    trim l ≠ [] :=
  List.ne_nil_of_mem (mem_trim h hc)

theorem dropWhile_eq_nil_of_all {p : Char → Bool} :
    ∀ {l : List Char}, (∀ c ∈ l, p c = true) → l.dropWhile p = []
  | [], _ => rfl
  | a :: r, hall => by
    rw [List.dropWhile_cons_of_pos (hall a (List.mem_cons_self a r))]
    exact dropWhile_eq_nil_of_all (fun c hc => hall c (List.mem_cons_of_mem a hc))

theorem exists_nonWs_of_trim_ne_nil {l : List Char} (h : trim l ≠ []) :
    ∃ c ∈ l, isWs c = false := by
  by_contra hall
  push_neg at hall
  have hdrop : l.dropWhile isWs = [] :=
    dropWhile_eq_nil_of_all (fun c hc => by simpa using hall c hc)
  exact h (by simp [trim, dropLastWhile, hdrop])

theorem wordRuns_pos {l : List Char} (h : ∃ c ∈ l, isWs c = false) :
    1 ≤ wordRuns false l := by
  induction l with
  | nil => rcases h with ⟨c, hc, _⟩; cases hc
  | cons a r ih =>
    rcases h with ⟨c, hc, hws⟩
    by_cases ha : isWs a
    · rcases List.mem_cons.mp hc with rfl | hr
      · rw [ha] at hws; cases hws
      · rw [wordRuns, if_pos ha]
        exact ih ⟨c, hr, hws⟩
    · rw [wordRuns, if_neg ha]
      simp

theorem countWords_pos {l : List Char} (h : ∃ c ∈ l, isWs c = false) :
    1 ≤ countWords l := by
  rcases h with ⟨c, hc, hws⟩
  have hne : trim l ≠ [] := trim_ne_nil hc hws
  unfold countWords
  rw [if_neg hne]
  exact wordRuns_pos ⟨c, mem_trim hc hws, hws⟩

theorem countWords_pos_elim {l : List Char} (h : 1 ≤ countWords l) :
    ∃ c ∈ l, isWs c = false := by
  apply exists_nonWs_of_trim_ne_nil
  intro hnil
  unfold countWords at h
  rw [if_pos hnil] at h
  omega

/-! Paragraph counting.  `countParagraphs` splits the trimmed text on the
regular expression `(?:\r?\n){2,}`: a separator is a maximal run of
line-break units, where a unit is `\r\n` or `\n`, and at least two units are
required.  Blocks that trim to nothing are discarded. -/

/-- Greedy match of `(?:\r?\n)*` at the head of the list: returns the number
of line-break units matched and the number of characters they span. -/
def unitsRun : List Char → Nat × Nat
  | '\r' :: '\n' :: r => ((unitsRun r).1 + 1, (unitsRun r).2 + 2)
  | '\n' :: r => ((unitsRun r).1 + 1, (unitsRun r).2 + 1)
  | _ => (0, 0)

/-- Split on separators matching `(?:\r?\n){2,}` (the `split` call in
`countParagraphs`).  `cur` is the reversed current block; the fuel bounds the
number of scan steps and is instantiated with the text length. -/
def splitParas : Nat → List Char → List Char → List (List Char)
  | 0, cur, _ => [cur.reverse]
  | _ + 1, cur, [] => [cur.reverse]
  | fuel + 1, cur, c :: rs =>
    let u := unitsRun (c :: rs)
    if 2 ≤ u.1 then cur.reverse :: splitParas fuel [] ((c :: rs).drop u.2)
    else splitParas fuel (c :: cur) rs

/-- `countParagraphs` from `counter.ts`: trim; empty → 0; otherwise split on
runs of two or more line-break sequences and count the blocks that are not
whitespace-only. -/
def countParagraphs (text : List Char) : Nat :=
  let trimmed := trim text
  if trimmed = [] then 0
  else ((splitParas trimmed.length [] trimmed).filter (fun b => !(trim b).isEmpty)).length

/-- Positions of the blocks produced by the `countParagraphs` split: like
`splitParas` but each block is paired with its start index. -/
def splitParasPos : Nat → Nat → Nat → List Char → List Char → List (Nat × List Char)
  | 0, startPos, _, cur, _ => [(startPos, cur.reverse)]
  | _ + 1, startPos, _, cur, [] => [(startPos, cur.reverse)]
  | fuel + 1, startPos, pos, cur, c :: rs =>
    let u := unitsRun (c :: rs)
    if 2 ≤ u.1 then
      (startPos, cur.reverse) :: splitParasPos fuel (pos + u.2) (pos + u.2) [] ((c :: rs).drop u.2)
    else splitParasPos fuel startPos (pos + 1) (c :: cur) rs

/-- Modelled from the spec: the start index, in the original text, of the
`k`-th paragraph (1-based) "under `countParagraphs`'s rule (split on runs of
two or more line-break sequences, discarding blocks that are empty or
whitespace-only)".  This is the reference point the paragraph-overflow
boundary is required to agree with. -/
def nthParagraphStart (text : List Char) (k : Nat) : Option Nat :=
  let offset := (text.takeWhile isWs).length
  let trimmed := trim text
  if trimmed = [] then none
  else
    let kept := (splitParasPos trimmed.length 0 0 [] trimmed).filter
      (fun pb => !(trim pb.2).isEmpty)
    (kept[k - 1]?).map (fun pb => offset + pb.1)

theorem countParagraphs_example : countParagraphs ("a\r\rb\n\nc".toList) = 2 := by decide

theorem nthParagraphStart_example : nthParagraphStart ("a\r\rb\n\nc".toList) 2 = some 6 := by decide

/-! Sentence counting (`countSentences` in `counter.ts`). -/

/-- The fixed set of common abbreviations whose trailing period is not a
sentence end (`ABBREVIATIONS` in `counter.ts`), as lower-case character
lists. -/
def ABBREVIATIONS : List (List Char) :=
  ["mr", "mrs", "ms", "dr", "prof", "sr", "jr", "st", "ave", "blvd", "dept",
   "est", "fig", "govt", "inc", "ltd", "vs", "etc", "approx", "appt", "depts",
   "gen", "hon", "sgt", "cpl", "pvt", "capt", "lt", "col", "maj", "cmdr",
   "adm", "rev"].map String.toList

/-- Lower-casing applied to the word before a period (`toLowerCase`; the word
consists of ASCII letters only, where `Char.toLower` agrees with
JavaScript). -/
def lowerList (w : List Char) : List Char := w.map Char.toLower

/-- The `INITIALS_RE = /^[A-Z]$/` test: a single uppercase ASCII letter. -/
def isInitial : List Char → Bool
  | [c] => decide ('A' ≤ c) && decide (c ≤ 'Z')
  | _ => false

/-- `getWordBeforePeriod`: scan backward from the period over ASCII letters,
at most 20 characters, returning the word or `none` when there is none.
`prev` is the reversed prefix of the text ending just before the period. -/
def getWordBeforePeriod (prev : List Char) : Option (List Char) :=
  let w := ((prev.take 20).takeWhile isAsciiLetter).reverse
  if w = [] then none else some w

/-- The `/^\s*[A-Z]\./` test on the text following the period: after optional
whitespace, another "Letter." pattern continues the initialism. -/
def continuesInitialism (rest : List Char) : Bool :=
  match rest.dropWhile isWs with
  | c :: '.' :: _ => decide ('A' ≤ c) && decide (c ≤ 'Z')
  | _ => false

/-- The `/^\s*[a-z]/` test on the text following the period: after optional
whitespace the text continues with a lowercase word (mid-sentence). -/
def continuesLowercase (rest : List Char) : Bool :=
  match rest.dropWhile isWs with
  | c :: _ => decide ('a' ≤ c) && decide (c ≤ 'z')
  | [] => false

/-- Classification of a non-ellipsis period in `countSentences`: `true` when
the period ends a sentence.  `prev` is the reversed text before the period
and `rest` the text after it.  A known abbreviation is never terminal; a
single uppercase initial is non-terminal exactly when the following text
continues the initialism or continues with a lowercase word; anything else
is terminal. -/
def isTerminalPeriod (prev rest : List Char) : Bool :=
  match getWordBeforePeriod prev with
  | none => true
  | some w =>
    if lowerList w ∈ ABBREVIATIONS then false
    else if isInitial w then !(continuesInitialism rest || continuesLowercase rest)
    else true

/-- Characters consumed after a terminal period (`/[\s.!?]/`). -/
def isJunk (c : Char) : Bool := isWs c || c == '.' || c == '!' || c == '?'

/-- Bang/question characters (`/[!?]/`). -/
def isBang (c : Char) : Bool := c == '!' || c == '?'

/-- The scan loop of `countSentences`.  `prev` is the reversed consumed
prefix (so `prev.length` is the current index), `rest` the remaining text,
`count` the sentences counted so far and `lastEnd` the index just after the
last recorded boundary.  The fuel bounds the number of loop iterations; each
iteration consumes at least one character, so `rest.length` iterations always
suffice. -/
def sentenceScan : Nat → List Char → List Char → Nat → Nat → Nat × Nat
  | 0, _, _, count, lastEnd => (count, lastEnd)
  | _ + 1, _, [], count, lastEnd => (count, lastEnd)
  | fuel + 1, prev, c :: rs, count, lastEnd =>
    if c = '.' then
      if rs.head? = some '.' then
        -- ellipsis: consume the dot run, then trailing whitespace; count a
        -- boundary only when non-whitespace text remains
        let dots := rs.takeWhile (fun d => d == '.')
        let r1 := rs.dropWhile (fun d => d == '.')
        let ws1 := r1.takeWhile isWs
        let r2 := r1.dropWhile isWs
        let pos := prev.length + 1 + dots.length + ws1.length
        let prev1 := ws1.reverse ++ dots.reverse ++ '.' :: prev
        if r2 = [] then sentenceScan fuel prev1 r2 count lastEnd
        else sentenceScan fuel prev1 r2 (count + 1) pos
      else if isTerminalPeriod prev rs then
        -- terminal period: count, then consume trailing punctuation/whitespace
        let junk := rs.takeWhile isJunk
        let r1 := rs.dropWhile isJunk
        let pos := prev.length + 1 + junk.length
        sentenceScan fuel (junk.reverse ++ '.' :: prev) r1 (count + 1) pos
      else
        -- abbreviation or mid-initialism period: advance past the dot
        sentenceScan fuel ('.' :: prev) rs count lastEnd
    else if c = '!' ∨ c = '?' then
      -- always terminal: consume the !/? run, then whitespace
      let bangs := rs.takeWhile isBang
      let r1 := rs.dropWhile isBang
      let ws1 := r1.takeWhile isWs
      let r2 := r1.dropWhile isWs
      let pos := prev.length + 1 + bangs.length + ws1.length
      sentenceScan fuel (ws1.reverse ++ bangs.reverse ++ c :: prev) r2 (count + 1) pos
    else sentenceScan fuel (c :: prev) rs count lastEnd

/-- `countSentences` from `counter.ts`: trim; empty or word-less text → 0;
otherwise scan for boundaries; no boundary but words present → 1; trailing
non-whitespace after the last boundary adds one sentence. -/
def countSentences (text : List Char) : Nat :=
  let trimmed := trim text
  if trimmed = [] then 0
  else if !(trimmed.any (fun c => !isWs c)) then 0
  else
    let scanned := sentenceScan trimmed.length [] trimmed 0 0
    if scanned.1 = 0 then 1
    else if scanned.2 < trimmed.length ∧ (trimmed.drop scanned.2).any (fun c => !isWs c)
    then scanned.1 + 1
    else scanned.1

theorem countSentences_example1 : countSentences ("Dr. Smith went to D.C.".toList) = 1 := by decide

theorem countSentences_example2 : countSentences ("I live in D.C. It is busy.".toList) = 2 := by decide

/-! Overflow detection (`overflow.ts`). -/

/-- Result of the overflow check.  The limit value is a JavaScript `number`,
so the amount and boundary are modelled as integers. -/
structure OverflowResult where
  isOver : Bool
  overflowAmount : Int
  boundaryCharIndex : Int
  deriving DecidableEq, Repr

/-- `LimitType` in `overflow.ts`. -/
inductive LimitType
  | words
  | characters
  | paragraphs
  deriving DecidableEq, Repr

/-- The word-walking loop of `detectWordOverflow`: alternately skip
whitespace and a word's non-whitespace run until `k` words have been
consumed or the text is exhausted.  The loop runs at most `limit` iterations
(the word counter increases by one per iteration), so it is modelled by
recursion on the remaining word budget `k`; the early exits mirror the
`i < text.length` checks. -/
def walkWords : Nat → List Char → Nat → Nat × List Char
  | 0, rest, pos => (pos, rest)
  | k + 1, rest, pos =>
    if rest = [] then (pos, rest)
    else
      let ws1 := rest.takeWhile isWs
      let r1 := rest.dropWhile isWs
      if r1 = [] then (pos + ws1.length, r1)
      else
        let wd := r1.takeWhile (fun c => !isWs c)
        let r2 := r1.dropWhile (fun c => !isWs c)
        walkWords k r2 (pos + ws1.length + wd.length)

/-- Modelled from the spec: "walk the text alternately skipping whitespace
and skipping a word's non-whitespace run, counting words until `limitValue`
have been consumed" — the same walk written as a plain recursion on the
number of words to consume, used as the reference value for the
word-overflow boundary. -/
def consumeWords : Nat → List Char → Nat → Nat × List Char
  | 0, rest, pos => (pos, rest)
  | k + 1, rest, pos =>
    let ws1 := rest.takeWhile isWs
    let r1 := rest.dropWhile isWs
    let wd := r1.takeWhile (fun c => !isWs c)
    let r2 := r1.dropWhile (fun c => !isWs c)
    consumeWords k r2 (pos + ws1.length + wd.length)

/-- Modelled from the spec: the word-overflow boundary — "the index reached
after consuming the first `limitValue` maximal non-whitespace runs and then
skipping any whitespace immediately following the last allowed word". -/
def wordBoundarySpec (text : List Char) (k : Nat) : Nat :=
  let walked := consumeWords k text 0
  walked.1 + (walked.2.takeWhile isWs).length

/-- `detectWordOverflow` from `overflow.ts`. -/
def detectWordOverflow (text : List Char) (limit : Int) : OverflowResult :=
  let totalWords := countWords text
  if (totalWords : Int) ≤ limit then
    ⟨false, 0, (text.length : Int)⟩
  else if limit = 0 then
    ⟨true, (totalWords : Int), 0⟩
  else
    let walked := walkWords limit.toNat text 0
    let boundary := walked.1 + (walked.2.takeWhile isWs).length
    ⟨true, (totalWords : Int) - limit, (boundary : Int)⟩

/-- `detectCharacterOverflow` from `overflow.ts`: the boundary is the limit
itself. -/
def detectCharacterOverflow (text : List Char) (limit : Int) : OverflowResult :=
  if (text.length : Int) ≤ limit then ⟨false, 0, (text.length : Int)⟩
  else ⟨true, (text.length : Int) - limit, limit⟩

/-- The line-ending counting loop of `detectParagraphOverflow`: consume the
maximal run of `\n`/`\r` characters, counting `\r\n` as a single line ending;
returns the number of endings and the number of characters consumed. -/
def newlineRun : List Char → Nat × Nat
  | '\r' :: '\n' :: r => ((newlineRun r).1 + 1, (newlineRun r).2 + 2)
  | '\n' :: r => ((newlineRun r).1 + 1, (newlineRun r).2 + 1)
  | '\r' :: r => ((newlineRun r).1 + 1, (newlineRun r).2 + 1)
  | _ => (0, 0)

/-- Whether a character is `\n` or `\r` (the break characters of
`detectParagraphOverflow`). -/
def isNl (c : Char) : Bool := c == '\n' || c == '\r'

/-- The inner loop of `detectParagraphOverflow`: consume the rest of the
current paragraph up to and including the next run of two or more line
endings (or the end of the text).  Returns the remaining text and the new
index.  Fuel bounds the steps; each step consumes at least one character. -/
def consumePara : Nat → List Char → Nat → List Char × Nat
  | 0, rest, pos => (rest, pos)
  | _ + 1, [], pos => ([], pos)
  | fuel + 1, c :: rs, pos =>
    if isNl c then
      let run := newlineRun (c :: rs)
      if 2 ≤ run.1 then ((c :: rs).drop run.2, pos + run.2)
      else consumePara fuel ((c :: rs).drop run.2) (pos + run.2)
    else consumePara fuel rs (pos + 1)

/-- The outer loop of `detectParagraphOverflow`: skip newline characters,
count each paragraph start, and return the index of the first character of
the `(limit+1)`-th paragraph when the count exceeds the limit (`none` when
the text runs out first). -/
def paraScan (limit : Int) : Nat → List Char → Nat → Nat → Option Nat
  | 0, _, _, _ => none
  | _ + 1, [], _, _ => none
  | fuel + 1, c :: rs, pos, paraCount =>
    if isNl c then paraScan limit fuel rs (pos + 1) paraCount
    else if limit < ((paraCount : Int) + 1) then some pos
    else
      let consumed := consumePara (c :: rs).length (c :: rs) pos
      paraScan limit fuel consumed.1 consumed.2 (paraCount + 1)

/-- `detectParagraphOverflow` from `overflow.ts`. -/
def detectParagraphOverflow (text : List Char) (limit : Int) : OverflowResult :=
  let totalParagraphs := countParagraphs text
  if (totalParagraphs : Int) ≤ limit then
    ⟨false, 0, (text.length : Int)⟩
  else if limit = 0 then
    ⟨true, (totalParagraphs : Int), 0⟩
  else
    match paraScan limit text.length text 0 0 with
    | some b => ⟨true, (totalParagraphs : Int) - limit, (b : Int)⟩
    | none => ⟨true, (totalParagraphs : Int) - limit, (text.length : Int)⟩

/-- `detectOverflow` from `overflow.ts`: dispatch on the limit kind; empty
text never overflows. -/
def detectOverflow (text : List Char) (limitType : LimitType) (limitValue : Int) :
    OverflowResult :=
  if text = [] then ⟨false, 0, (text.length : Int)⟩
  else
    match limitType with
    | .words => detectWordOverflow text limitValue
    | .characters => detectCharacterOverflow text limitValue
    | .paragraphs => detectParagraphOverflow text limitValue

/-! Reading-time estimation (`estimateReadingTime` in the reading-time
module).  The JavaScript numbers are modelled as rationals; `Math.ceil` is
`Int.ceil`.  The default words-per-minute is 250; both arguments are taken
explicitly here. -/

/-- `ReadingTimeResult`: rounded-up minutes and a human-readable label. -/
structure ReadingTimeResult where
  minutes : Int
  label : String
  deriving DecidableEq, Repr

/-- `estimateReadingTime(wordCount, wpm = 250)`: non-positive word counts
short-circuit to a zero result; a non-positive words-per-minute value is a
`RangeError`; texts reading in under a quarter minute show "< 1 min read";
otherwise minutes is the reading time rounded up. -/
def estimateReadingTime (wordCount : ℚ) (wpm : ℚ) : Except String ReadingTimeResult :=
  if wordCount ≤ 0 then .ok ⟨0, "< 1 min read"⟩
  else if wpm ≤ 0 then .error "wpm must be greater than 0"
  else
    let raw := wordCount / wpm
    if raw < 1 / 4 then .ok ⟨0, "< 1 min read"⟩
    else
      let minutes := ⌈raw⌉
      .ok ⟨minutes, "~" ++ toString minutes ++ " min read"⟩

/-! Readability analysis (`analyzeReadability` in the readability module).
The syllable estimator is an injected external capability and is taken as a
function parameter; the three formula packages are modelled from the spec's
formulas.  JavaScript floating-point arithmetic is modelled by exact rational
arithmetic. -/

/-- A score together with its human-readable label (the `{grade, label}` /
`{score, label}` pairs of `ReadabilityResult`). -/
structure LabeledScore where
  value : ℚ
  label : String
  deriving DecidableEq, Repr

/-- `ReadabilityResult` from the readability module. -/
structure ReadabilityResult where
  fleschKincaid : LabeledScore
  colemanLiau : LabeledScore
  fleschReadingEase : LabeledScore
  deriving DecidableEq, Repr

/-- JavaScript `Math.round`: round half toward positive infinity. -/
def jsRound (v : ℚ) : Int := ⌊v + 1 / 2⌋

/-- The `round(value, 1)` helper: round to one decimal place. -/
def round1 (v : ℚ) : ℚ := (jsRound (v * 10) : ℚ) / 10

/-- The `gradeLabel` helper: bucket the rounded grade into a description. -/
def gradeLabel (grade : ℚ) : String :=
  let g := jsRound grade
  if g ≤ 1 then "Grade 1 — Very easy to read"
  else if g ≤ 3 then "Grade " ++ toString g ++ " — Easy to read"
  else if g ≤ 5 then "Grade " ++ toString g ++ " — Fairly easy to read"
  else if g ≤ 8 then "Grade " ++ toString g ++ " — Plain language"
  else if g ≤ 10 then "Grade " ++ toString g ++ " — Fairly difficult to read"
  else if g ≤ 12 then "Grade " ++ toString g ++ " — Difficult to read"
  else if g ≤ 16 then "Grade " ++ toString g ++ " — College level"
  else "Grade " ++ toString g ++ " — Professional/academic"

/-- The `readingEaseLabel` helper: bucket a Flesch Reading Ease score. -/
def readingEaseLabel (score : ℚ) : String :=
  if 90 ≤ score then "Very easy to read"
  else if 80 ≤ score then "Easy to read"
  else if 70 ≤ score then "Fairly easy to read"
  else if 60 ≤ score then "Standard"
  else if 50 ≤ score then "Fairly difficult to read"
  else if 30 ≤ score then "Difficult to read"
  else "Very difficult to read"

/-- Modelled from the spec: the `flesch-kincaid` package —
"Flesch-Kincaid grade = 0.39*(words/sentences) + 11.8*(syllables/words) -
15.59". -/
def fleschKincaidGrade (sentences words syllables : ℚ) : ℚ :=
  (39 / 100) * (words / sentences) + (118 / 10) * (syllables / words) - 1559 / 100

/-- Modelled from the spec: the `coleman-liau` package —
"Coleman-Liau index = 0.0588*(letters/words*100) - 0.296*(sentences/words*100)
- 15.8". -/
def colemanLiauIndex (sentences words letters : ℚ) : ℚ :=
  (588 / 10000) * (letters / words * 100) - (296 / 1000) * (sentences / words * 100) - 158 / 10

/-- Modelled from the spec: the `flesch` package — "Flesch Reading Ease =
206.835 - 1.015*(words/sentences) - 84.6*(syllables/words)". -/
def fleschReadingEaseScore (sentences words syllables : ℚ) : ℚ :=
  206835 / 1000 - (1015 / 1000) * (words / sentences) - (846 / 10) * (syllables / words)

/-- The token list of `trimmed.match(/\S+/g) ?? []`: maximal non-whitespace
runs, in order.  Fuel bounds the scan and is instantiated with the text
length. -/
def tokensGo : Nat → List Char → List (List Char)
  | 0, _ => []
  | fuel + 1, l =>
    match l.dropWhile isWs with
    | [] => []
    | c :: rs => (c :: rs.takeWhile (fun d => !isWs d)) :: tokensGo fuel (rs.dropWhile (fun d => !isWs d))

/-- Letters kept by the Coleman-Liau letter count
(`/[^a-zA-ZÀ-ɏ]/` is stripped): ASCII letters and the Latin
accented ranges U+00C0–U+024F. -/
def isLatinLetter (c : Char) : Bool :=
  isAsciiLetter c || (decide (0xc0 ≤ c.toNat) && decide (c.toNat ≤ 0x24f))

/-- `analyzeReadability(text)`: `null` (here `none`) for empty/whitespace
text or a zero word or sentence count; otherwise the three readability
scores, each rounded to one decimal and labelled.  `syl` is the injected
syllable estimator (`syllable` package): word token → estimated syllable
count. -/
def analyzeReadability (syl : List Char → Nat) (text : List Char) :
    Option ReadabilityResult :=
  let trimmed := trim text
  if trimmed = [] then none
  else
    let wordCount := countWords trimmed
    let sentenceCount := countSentences trimmed
    if wordCount = 0 ∨ sentenceCount = 0 then none
    else
      let words := tokensGo trimmed.length trimmed
      let totalSyllables : Nat := (words.map syl).sum
      let totalLetters : Nat := (words.map (fun w => (w.filter isLatinLetter).length)).sum
      let fkGrade := fleschKincaidGrade sentenceCount wordCount totalSyllables
      let clGrade := colemanLiauIndex sentenceCount wordCount totalLetters
      let freScore := fleschReadingEaseScore sentenceCount wordCount totalSyllables
      let fkRounded := round1 fkGrade
      let clRounded := round1 clGrade
      let freRounded := round1 freScore
      some
        { fleschKincaid := ⟨fkRounded, gradeLabel fkRounded⟩
          colemanLiau := ⟨clRounded, gradeLabel clRounded⟩
          fleschReadingEase := ⟨freRounded, readingEaseLabel freRounded⟩ }

/-! Theorems for the claims. -/

/-- C6 (counterexample): the claim "estimateReadingTime fails whenever
wordsPerMinute ≤ 0, for every wordCount" is false — at wordCount 0 and
wordsPerMinute -1 the function returns the zero result without failing,
because the wordCount check runs first. -/
theorem claim_C6_cex :
    estimateReadingTime 0 (-1) = .ok ⟨0, "< 1 min read"⟩ := by
  simp [estimateReadingTime]

/-- C6 (amended): estimateReadingTime fails with the invalid-configuration
error whenever wordsPerMinute ≤ 0 and the wordCount is positive; and for
every wordsPerMinute > 0 it never fails on any input. -/
theorem claim_C6 :
    (∀ wordCount wpm : ℚ, 0 < wordCount → wpm ≤ 0 →
      estimateReadingTime wordCount wpm = .error "wpm must be greater than 0")
    ∧ (∀ wordCount wpm : ℚ, 0 < wpm →
      ∃ r, estimateReadingTime wordCount wpm = .ok r) := by
  constructor
  · intro wordCount wpm hwc hwpm
    rw [estimateReadingTime, if_neg (not_le.mpr hwc), if_pos hwpm]
  · intro wordCount wpm hwpm
    rw [estimateReadingTime]
    by_cases hwc : wordCount ≤ 0
    · rw [if_pos hwc]; exact ⟨_, rfl⟩
    · rw [if_neg hwc, if_neg (not_le.mpr hwpm)]
      by_cases hraw : wordCount / wpm < 1 / 4
      · rw [if_pos hraw]; exact ⟨_, rfl⟩
      · rw [if_neg hraw]; exact ⟨_, rfl⟩

/-- C6 (witness): both parts of the amended claim at concrete inputs. -/
theorem claim_C6_witness :
    estimateReadingTime 100 0 = .error "wpm must be greater than 0"
    ∧ ∃ r, estimateReadingTime 100 250 = .ok r :=
  ⟨claim_C6.1 100 0 (by norm_num) (by norm_num), claim_C6.2 100 250 (by norm_num)⟩

/-- C9: for fixed wordsPerMinute > 0, the reading-time estimate is monotonic
non-decreasing in wordCount (and never fails). -/
theorem claim_C9 (a b wpm : ℚ) (hwpm : 0 < wpm) (hab : a ≤ b) :
    ∃ ra rb, estimateReadingTime a wpm = .ok ra ∧ estimateReadingTime b wpm = .ok rb
      ∧ ra.minutes ≤ rb.minutes := by
  have hw' : ¬ wpm ≤ 0 := not_le.mpr hwpm
  rw [estimateReadingTime, estimateReadingTime]
  by_cases ha : a ≤ 0
  · rw [if_pos ha]
    by_cases hb : b ≤ 0
    · rw [if_pos hb]; exact ⟨_, _, rfl, rfl, le_refl 0⟩
    · rw [if_neg hb, if_neg hw']
      by_cases hrb : b / wpm < 1 / 4
      · rw [if_pos hrb]; exact ⟨_, _, rfl, rfl, le_refl 0⟩
      · rw [if_neg hrb]
        refine ⟨_, _, rfl, rfl, ?_⟩
        exact Int.ceil_nonneg (div_nonneg (le_of_lt (not_le.mp hb)) hwpm.le)
  · rw [if_neg ha, if_neg hw']
    have hb : ¬ b ≤ 0 := fun h => ha (hab.trans h)
    rw [if_neg hb, if_neg hw']
    have hdiv : a / wpm ≤ b / wpm := by gcongr
    by_cases hra : a / wpm < 1 / 4
    · rw [if_pos hra]
      by_cases hrb : b / wpm < 1 / 4
      · rw [if_pos hrb]; exact ⟨_, _, rfl, rfl, le_refl 0⟩
      · rw [if_neg hrb]
        exact ⟨_, _, rfl, rfl,
          Int.ceil_nonneg (div_nonneg (le_of_lt (not_le.mp hb)) hwpm.le)⟩
    · have hrb : ¬ b / wpm < 1 / 4 := fun h => hra (lt_of_le_of_lt hdiv h)
      rw [if_neg hra, if_neg hrb]
      exact ⟨_, _, rfl, rfl, Int.ceil_mono hdiv⟩

/-- C9 (witness): monotonicity at word counts 100 ≤ 500 with 250 wpm. -/
theorem claim_C9_witness :
    ∃ ra rb, estimateReadingTime 100 250 = .ok ra ∧ estimateReadingTime 500 250 = .ok rb
      ∧ ra.minutes ≤ rb.minutes :=
  claim_C9 100 500 250 (by norm_num) (by norm_num)

/-- C10: for every wordCount ≤ 0 and every wordsPerMinute — including
non-positive ones — estimateReadingTime returns the zero result without
failing, because the wordCount check precedes the wordsPerMinute
validation. -/
theorem claim_C10 (wordCount wpm : ℚ) (h : wordCount ≤ 0) :
    estimateReadingTime wordCount wpm = .ok ⟨0, "< 1 min read"⟩ := by
  rw [estimateReadingTime, if_pos h]

/-- C10 (witness): a negative word count with a non-positive wpm. -/
theorem claim_C10_witness :
    estimateReadingTime (-3) (-2) = .ok ⟨0, "< 1 min read"⟩ :=
  claim_C10 (-3) (-2) (by norm_num)

theorem countSentences_pos {l : List Char} (h : ∃ c ∈ l, isWs c = false) :
    1 ≤ countSentences l := by
  rcases h with ⟨c, hc, hws⟩
  have ht : trim l ≠ [] := trim_ne_nil hc hws
  have hany : (trim l).any (fun c => !isWs c) = true :=
    List.any_eq_true.mpr ⟨c, mem_trim hc hws, by rw [hws]; rfl⟩
  unfold countSentences
  rw [if_neg ht, if_neg (by simp [hany])]
  show 1 ≤ (let scanned := sentenceScan (trim l).length [] (trim l) 0 0;
    if scanned.1 = 0 then 1
    else if scanned.2 < (trim l).length ∧ ((List.drop scanned.2 (trim l)).any fun c => !isWs c) = true
    then scanned.1 + 1 else scanned.1)
  simp only []
  split
  · exact le_refl 1
  · split <;> omega

/-- C8: every text with at least one word has at least one sentence. -/
theorem claim_C8 (text : List Char) (h : 1 ≤ countWords text) :
    1 ≤ countSentences text :=
  countSentences_pos (countWords_pos_elim h)

/-- C8 (witness): a one-word text has a sentence. -/
theorem claim_C8_witness : 1 ≤ countSentences ("hi".toList) :=
  claim_C8 ("hi".toList) (by decide)

/-- C7: analyzeReadability returns the absent sentinel exactly when the text
is empty or whitespace-only, or the word count or sentence count is 0 (the
three conditions coincide); on every other text it returns a result — no
failure is possible. -/
theorem claim_C7 (syl : List Char → Nat) (text : List Char) :
    analyzeReadability syl text = none
      ↔ (trim text = [] ∨ countWords text = 0 ∨ countSentences text = 0) := by
  by_cases ht : trim text = []
  · simp [analyzeReadability, ht]
  · obtain ⟨c, hc, hws⟩ := exists_nonWs_of_trim_ne_nil ht
    have hct : c ∈ trim text := mem_trim hc hws
    have hwpos : 1 ≤ countWords (trim text) := countWords_pos ⟨c, hct, hws⟩
    have hspos : 1 ≤ countSentences (trim text) := countSentences_pos ⟨c, hct, hws⟩
    have hw2 : 1 ≤ countWords text := countWords_pos ⟨c, hc, hws⟩
    have hs2 : 1 ≤ countSentences text := countSentences_pos ⟨c, hc, hws⟩
    constructor
    · intro hnone
      exfalso
      unfold analyzeReadability at hnone
      rw [if_neg ht, if_neg (by omega : ¬ (countWords (trim text) = 0 ∨ countSentences (trim text) = 0))] at hnone
      exact Option.some_ne_none _ hnone
    · intro h
      rcases h with h | h | h
      · exact absurd h ht
      · omega
      · omega

theorem unitsRun_le (l : List Char) :
    (unitsRun l).1 ≤ (unitsRun l).2 ∧ (unitsRun l).2 ≤ l.length := by
  induction l using unitsRun.induct with
  | case1 r ih => simp only [unitsRun]; simp at ih ⊢; omega
  | case2 r ih => simp only [unitsRun]; simp at ih ⊢; omega
  | case3 l h1 h2 => rw [unitsRun.eq_def]; split <;> simp_all

theorem unitsRun_take_ws (l : List Char) :
    ∀ c ∈ l.take (unitsRun l).2, isWs c = true := by
  induction l using unitsRun.induct with
  | case1 r ih =>
    simp only [unitsRun, List.take_succ_cons]
    intro c hc
    rcases List.mem_cons.mp hc with rfl | hc'
    · decide
    · rcases List.mem_cons.mp hc' with rfl | hc''
      · decide
      · exact ih c hc''
  | case2 r ih =>
    simp only [unitsRun, List.take_succ_cons]
    intro c hc
    rcases List.mem_cons.mp hc with rfl | hc'
    · decide
    · exact ih c hc'
  | case3 l h1 h2 =>
    rw [unitsRun.eq_def]
    split <;> simp_all

theorem splitParas_exists :
    ∀ (fuel : Nat) (cur rest : List Char), rest.length ≤ fuel →
    ((∃ c ∈ cur, isWs c = false) ∨ (∃ c ∈ rest, isWs c = false)) →
    ∃ b ∈ splitParas fuel cur rest, ∃ c ∈ b, isWs c = false := by
  intro fuel
  induction fuel with
  | zero =>
    intro cur rest hlen h
    have hrest : rest = [] := List.length_eq_zero.mp (Nat.le_zero.mp hlen)
    subst hrest
    rcases h with ⟨c, hc, hw⟩ | ⟨c, hc, _⟩
    · exact ⟨cur.reverse, by simp [splitParas], c, List.mem_reverse.mpr hc, hw⟩
    · cases hc
  | succ fuel ih =>
    intro cur rest hlen h
    cases rest with
    | nil =>
      rcases h with ⟨c, hc, hw⟩ | ⟨c, hc, _⟩
      · exact ⟨cur.reverse, by simp [splitParas], c, List.mem_reverse.mpr hc, hw⟩
      · cases hc
    | cons c rs =>
      by_cases hu : 2 ≤ (unitsRun (c :: rs)).1
      · rw [splitParas, if_pos hu]
        have hn2 := unitsRun_le (c :: rs)
        rcases h with ⟨d, hd, hw⟩ | ⟨d, hd, hw⟩
        · exact ⟨cur.reverse, List.mem_cons_self _ _, d, List.mem_reverse.mpr hd, hw⟩
        · have hsplit : d ∈ (c :: rs).take (unitsRun (c :: rs)).2 ++
              (c :: rs).drop (unitsRun (c :: rs)).2 := by
            rw [List.take_append_drop]; exact hd
          rcases List.mem_append.mp hsplit with htake | hdrop
          · rw [unitsRun_take_ws (c :: rs) d htake] at hw
            cases hw
          · obtain ⟨b, hb, hbw⟩ := ih [] ((c :: rs).drop (unitsRun (c :: rs)).2)
              (by simp only [List.length_drop]; simp at hlen ⊢; omega)
              (Or.inr ⟨d, hdrop, hw⟩)
            exact ⟨b, List.mem_cons_of_mem _ hb, hbw⟩
      · rw [splitParas, if_neg hu]
        apply ih (c :: cur) rs (by simpa using hlen)
        rcases h with ⟨d, hd, hw⟩ | ⟨d, hd, hw⟩
        · exact Or.inl ⟨d, List.mem_cons_of_mem c hd, hw⟩
        · rcases List.mem_cons.mp hd with rfl | hd'
          · exact Or.inl ⟨d, List.mem_cons_self d cur, hw⟩
          · exact Or.inr ⟨d, hd', hw⟩

theorem countParagraphs_pos {l : List Char} (h : ∃ c ∈ l, isWs c = false) :
    1 ≤ countParagraphs l := by
  rcases h with ⟨c, hc, hw⟩
  have ht : trim l ≠ [] := trim_ne_nil hc hw
  obtain ⟨b, hb, d, hd, hwd⟩ := splitParas_exists (trim l).length [] (trim l)
    (le_refl _) (Or.inr ⟨c, mem_trim hc hw, hw⟩)
  unfold countParagraphs
  rw [if_neg ht]
  have hpass : (!(trim b).isEmpty) = true := by
    simp only [Bool.not_eq_true']
    rw [List.isEmpty_eq_false]
    exact trim_ne_nil hd hwd
  have hmem : b ∈ (splitParas (trim l).length [] (trim l)).filter
      (fun b => !(trim b).isEmpty) := List.mem_filter.mpr ⟨hb, hpass⟩
  have := List.ne_nil_of_mem hmem
  simpa [Nat.succ_le_iff, List.length_pos]

/-- C3 (counterexample): the claim fails on non-empty whitespace-only text —
`detectOverflow " " words 0` reports no overflow (the word count 0 does not
exceed the limit 0), not `isOver = true` with boundary 0. -/
theorem claim_C3_cex : detectOverflow (" ".toList) .words 0 = ⟨false, 0, 1⟩ := by decide

/-- C3 (amended): for every text containing at least one non-whitespace
character and every limit kind, detectOverflow with limit 0 reports overflow
starting at index 0. -/
theorem claim_C3 (text : List Char) (kind : LimitType)
    (h : ∃ c ∈ text, isWs c = false) :
    (detectOverflow text kind 0).isOver = true
      ∧ (detectOverflow text kind 0).boundaryCharIndex = 0 := by
  rcases h with ⟨c, hc, hw⟩
  have htext : text ≠ [] := List.ne_nil_of_mem hc
  have hwp : 1 ≤ countWords text := countWords_pos ⟨c, hc, hw⟩
  have hpp : 1 ≤ countParagraphs text := countParagraphs_pos ⟨c, hc, hw⟩
  have hlen : 1 ≤ text.length := List.length_pos.mpr htext
  unfold detectOverflow
  rw [if_neg htext]
  cases kind with
  | words =>
    unfold detectWordOverflow
    rw [if_neg (by exact_mod_cast not_le.mpr (by exact_mod_cast hwp)), if_pos rfl]
    exact ⟨rfl, rfl⟩
  | characters =>
    unfold detectCharacterOverflow
    rw [if_neg (by exact_mod_cast not_le.mpr (by exact_mod_cast hlen))]
    exact ⟨rfl, rfl⟩
  | paragraphs =>
    unfold detectParagraphOverflow
    rw [if_neg (by exact_mod_cast not_le.mpr (by exact_mod_cast hpp)), if_pos rfl]
    exact ⟨rfl, rfl⟩

/-- C3 (witness): a one-letter text overflows a character limit of 0 at
index 0. -/
theorem claim_C3_witness :
    (detectOverflow ("a".toList) .characters 0).isOver = true
      ∧ (detectOverflow ("a".toList) .characters 0).boundaryCharIndex = 0 :=
  claim_C3 ("a".toList) .characters (by decide)

theorem ABBREVIATIONS_length (x : List Char) (hx : x ∈ ABBREVIATIONS) :
    2 ≤ x.length := by
  revert x
  decide

/-- C4: in countSentences' period classifier, a period preceded by a known
abbreviation is never a sentence terminal, and a period preceded by a single
uppercase initial is non-terminal exactly when the following text (after
optional whitespace) continues with another "Letter." pattern or with a
lowercase word; the concrete sentences "Dr. Smith went to D.C." and
"I live in D.C. It is busy." count 1 and 2 sentences respectively. -/
theorem claim_C4 :
    (∀ prev rest w, getWordBeforePeriod prev = some w →
      lowerList w ∈ ABBREVIATIONS → isTerminalPeriod prev rest = false)
    ∧ (∀ prev rest w, getWordBeforePeriod prev = some w → isInitial w = true →
      (isTerminalPeriod prev rest = false
        ↔ (continuesInitialism rest = true ∨ continuesLowercase rest = true)))
    ∧ countSentences ("Dr. Smith went to D.C.".toList) = 1
    ∧ countSentences ("I live in D.C. It is busy.".toList) = 2 := by
  refine ⟨?_, ?_, by decide, by decide⟩
  · intro prev rest w hg hab
    unfold isTerminalPeriod
    rw [hg]
    simp [hab]
  · intro prev rest w hg hinit
    have hnotab : lowerList w ∉ ABBREVIATIONS := by
      intro hmem
      have hlen2 := ABBREVIATIONS_length _ hmem
      have hw1 : w.length = 1 := by
        unfold isInitial at hinit
        match w with
        | [c] => rfl
        | [] => cases hinit
        | _ :: _ :: _ => cases hinit
      simp [lowerList, hw1] at hlen2
    unfold isTerminalPeriod
    rw [hg]
    simp only [hinit, if_true, if_neg hnotab]
    cases hci : continuesInitialism rest <;> cases hcl : continuesLowercase rest <;> simp

/-- C4 (witness): the classifier at the "Dr." period of the first example
sentence (abbreviation, part 1) and at the "D.C. It" period of the second
(initial followed by an uppercase word, part 2). -/
theorem claim_C4_witness :
    isTerminalPeriod ("rD".toList) (" Smith went to D.C.".toList) = false
    ∧ (isTerminalPeriod ("D ni evil I".toList) (" It is busy.".toList) = false
      ↔ (continuesInitialism (" It is busy.".toList) = true
        ∨ continuesLowercase (" It is busy.".toList) = true)) :=
  ⟨claim_C4.1 _ _ ("Dr".toList) (by decide) (by decide),
   claim_C4.2.1 _ _ ("D".toList) (by decide) (by decide)⟩

theorem takeWhile_dropWhile_length (p : Char → Bool) (l : List Char) :
    (l.takeWhile p).length + (l.dropWhile p).length = l.length := by
  conv_rhs => rw [← List.takeWhile_append_dropWhile (p := p) (l := l)]
  rw [List.length_append]

theorem consumeWords_nil : ∀ (k pos : Nat), consumeWords k [] pos = (pos, []) := by
  intro k
  induction k with
  | zero => intro pos; rfl
  | succ k ih => intro pos; simpa [consumeWords] using ih pos

theorem walkWords_eq_consumeWords :
    ∀ (k : Nat) (rest : List Char) (pos : Nat),
    walkWords k rest pos = consumeWords k rest pos := by
  intro k
  induction k with
  | zero => intro rest pos; rfl
  | succ k ih =>
    intro rest pos
    by_cases hrest : rest = []
    · subst hrest
      rw [walkWords, if_pos rfl, consumeWords]
      simp only [List.takeWhile_nil, List.dropWhile_nil, List.length_nil]
      rw [consumeWords_nil]
      simp
    · rw [walkWords, if_neg hrest, consumeWords]
      by_cases hr1 : rest.dropWhile isWs = []
      · rw [if_pos hr1]
        simp only [hr1]
        simp [consumeWords_nil]
      · rw [if_neg hr1]
        exact ih _ _

theorem consumeWords_acc :
    ∀ (k : Nat) (rest : List Char) (pos : Nat),
    (consumeWords k rest pos).1 + (consumeWords k rest pos).2.length = pos + rest.length := by
  intro k
  induction k with
  | zero => intro rest pos; simp [consumeWords]
  | succ k ih =>
    intro rest pos
    rw [consumeWords]
    have h1 := takeWhile_dropWhile_length isWs rest
    have h2 := takeWhile_dropWhile_length (fun c => !isWs c) (rest.dropWhile isWs)
    have h3 := ih ((rest.dropWhile isWs).dropWhile (fun c => !isWs c))
      (pos + (rest.takeWhile isWs).length + ((rest.dropWhile isWs).takeWhile (fun c => !isWs c)).length)
    omega

/-- C5: for a positive word limit below the total word count, detectOverflow
reports overflow with amount `countWords − limit` and boundary equal to the
index reached by consuming the first `limit` non-whitespace runs and then
skipping the whitespace after the last allowed word; in particular
`detectOverflow "aaa bbb ccc" words 2 = {true, 1, 8}`. -/
theorem claim_C5 :
    (∀ (text : List Char) (limit : Int), 0 < limit → limit < (countWords text : Int) →
      detectOverflow text .words limit =
        ⟨true, (countWords text : Int) - limit, (wordBoundarySpec text limit.toNat : Int)⟩)
    ∧ detectOverflow ("aaa bbb ccc".toList) .words 2 = ⟨true, 1, 8⟩ := by
  constructor
  · intro text limit h0 hlt
    have hwp : 1 ≤ countWords text := by
      have : (1 : Int) ≤ (countWords text : Int) := by omega
      exact_mod_cast this
    have htext : text ≠ [] := by
      obtain ⟨c, hc, _⟩ := countWords_pos_elim hwp
      exact List.ne_nil_of_mem hc
    unfold detectOverflow
    rw [if_neg htext]
    unfold detectWordOverflow
    rw [if_neg (not_le.mpr hlt), if_neg (by omega : ¬ limit = 0)]
    rw [walkWords_eq_consumeWords]
    rfl
  · decide

/-- C5 (witness): the general statement applied at "x y z" with limit 1. -/
theorem claim_C5_witness :
    detectOverflow ("x y z".toList) .words 1 = ⟨true, 2, 2⟩ :=
  (claim_C5.1 ("x y z".toList) 1 (by norm_num) (by decide)).trans (by decide)

theorem newlineRun_le (l : List Char) : (newlineRun l).2 ≤ l.length := by
  induction l using newlineRun.induct with
  | case1 r ih => simp only [newlineRun]; simp at ih ⊢; omega
  | case2 r ih => simp only [newlineRun]; simp at ih ⊢; omega
  | case3 r h ih => rw [newlineRun.eq_def]; split <;> simp_all
  | case4 l h1 h2 h3 => rw [newlineRun.eq_def]; split <;> simp_all

theorem consumePara_acc :
    ∀ (fuel : Nat) (rest : List Char) (pos : Nat),
    (consumePara fuel rest pos).2 + (consumePara fuel rest pos).1.length = pos + rest.length := by
  intro fuel
  induction fuel with
  | zero => intro rest pos; simp [consumePara]
  | succ fuel ih =>
    intro rest pos
    cases rest with
    | nil => simp [consumePara]
    | cons c rs =>
      rw [consumePara]
      by_cases hnl : isNl c
      · rw [if_pos hnl]
        have hle := newlineRun_le (c :: rs)
        by_cases hcnt : 2 ≤ (newlineRun (c :: rs)).1
        · rw [if_pos hcnt]
          simp only [List.length_drop, List.length_cons]
          simp at hle ⊢
          omega
        · rw [if_neg hcnt]
          have := ih ((c :: rs).drop (newlineRun (c :: rs)).2) (pos + (newlineRun (c :: rs)).2)
          simp only [List.length_drop, List.length_cons] at this ⊢
          simp at hle
          omega
      · rw [if_neg hnl]
        have := ih rs (pos + 1)
        simp only [List.length_cons]
        omega

theorem paraScan_bound (limit : Int) :
    ∀ (fuel : Nat) (rest : List Char) (pos paraCount b : Nat),
    paraScan limit fuel rest pos paraCount = some b → b ≤ pos + rest.length := by
  intro fuel
  induction fuel with
  | zero => intro rest pos pc b h; cases h
  | succ fuel ih =>
    intro rest pos pc b h
    cases rest with
    | nil => cases h
    | cons c rs =>
      rw [paraScan] at h
      by_cases hnl : isNl c
      · rw [if_pos hnl] at h
        have := ih rs (pos + 1) pc b h
        simp only [List.length_cons]
        omega
      · rw [if_neg hnl] at h
        by_cases hcnt : limit < ((pc : Int) + 1)
        · rw [if_pos hcnt] at h
          cases h
          simp
        · rw [if_neg hcnt] at h
          have hacc := consumePara_acc (c :: rs).length (c :: rs) pos
          have := ih (consumePara (c :: rs).length (c :: rs) pos).1
            (consumePara (c :: rs).length (c :: rs) pos).2 (pc + 1) b h
          omega

/-- C1 (counterexample): the invariant fails for a negative limit value —
`detectOverflow "a" characters (-1)` reports `boundaryCharIndex = -1`, which
is outside `[0, length(text)]` (the characters branch uses the limit itself
as the boundary). -/
theorem claim_C1_cex :
    detectOverflow ("a".toList) .characters (-1) = ⟨true, 2, -1⟩
    ∧ (detectOverflow ("a".toList) .characters (-1)).boundaryCharIndex < 0 := by
  constructor <;> decide

/-- C1 (amended): for every text, limit kind, and limit value ≥ 0, the
OverflowResult satisfies the data-model invariant: overflowAmount ≥ 0,
boundaryCharIndex lies in [0, length(text)], and when isOver is false,
boundaryCharIndex = length(text) and overflowAmount = 0. -/
theorem claim_C1 (text : List Char) (kind : LimitType) (limit : Int)
    (hlim : 0 ≤ limit) :
    0 ≤ (detectOverflow text kind limit).overflowAmount
    ∧ 0 ≤ (detectOverflow text kind limit).boundaryCharIndex
    ∧ (detectOverflow text kind limit).boundaryCharIndex ≤ (text.length : Int)
    ∧ ((detectOverflow text kind limit).isOver = false →
        (detectOverflow text kind limit).boundaryCharIndex = (text.length : Int)
        ∧ (detectOverflow text kind limit).overflowAmount = 0) := by
  by_cases htext : text = []
  · subst htext
    unfold detectOverflow
    rw [if_pos rfl]
    exact ⟨le_refl 0, le_refl 0, le_refl 0, fun _ => ⟨rfl, rfl⟩⟩
  · cases kind with
    | words =>
      have hred : detectOverflow text .words limit = detectWordOverflow text limit := by
        unfold detectOverflow
        rw [if_neg htext]
      rw [hred]
      by_cases hover : (countWords text : Int) ≤ limit
      · have heq : detectWordOverflow text limit = ⟨false, 0, (text.length : Int)⟩ := by
          unfold detectWordOverflow
          rw [if_pos hover]
        rw [heq]
        exact ⟨le_refl 0, Int.natCast_nonneg _, le_refl _, fun _ => ⟨rfl, rfl⟩⟩
      · by_cases h0 : limit = 0
        · have heq : detectWordOverflow text limit = ⟨true, (countWords text : Int), 0⟩ := by
            unfold detectWordOverflow
            rw [if_neg hover, if_pos h0]
          rw [heq]
          exact ⟨Int.natCast_nonneg _, le_refl 0, Int.natCast_nonneg _, fun h => by cases h⟩
        · have heq : detectWordOverflow text limit =
              ⟨true, (countWords text : Int) - limit,
                (((consumeWords limit.toNat text 0).1 +
                  ((consumeWords limit.toNat text 0).2.takeWhile isWs).length : Nat) : Int)⟩ := by
            unfold detectWordOverflow
            rw [if_neg hover, if_neg h0, walkWords_eq_consumeWords]
          rw [heq]
          refine ⟨?_, Int.natCast_nonneg _, ?_, fun h => by cases h⟩
          · show (0 : Int) ≤ (countWords text : Int) - limit
            omega
          · show (((consumeWords limit.toNat text 0).1 +
              ((consumeWords limit.toNat text 0).2.takeWhile isWs).length : Nat) : Int)
              ≤ (text.length : Int)
            have hacc := consumeWords_acc limit.toNat text 0
            have htw := takeWhile_dropWhile_length isWs (consumeWords limit.toNat text 0).2
            have hle : (consumeWords limit.toNat text 0).1 +
                ((consumeWords limit.toNat text 0).2.takeWhile isWs).length ≤ text.length := by
              omega
            exact_mod_cast hle
    | characters =>
      have hred : detectOverflow text .characters limit = detectCharacterOverflow text limit := by
        unfold detectOverflow
        rw [if_neg htext]
      rw [hred]
      by_cases hover : (text.length : Int) ≤ limit
      · have heq : detectCharacterOverflow text limit = ⟨false, 0, (text.length : Int)⟩ := by
          unfold detectCharacterOverflow
          rw [if_pos hover]
        rw [heq]
        exact ⟨le_refl 0, Int.natCast_nonneg _, le_refl _, fun _ => ⟨rfl, rfl⟩⟩
      · have heq : detectCharacterOverflow text limit =
            ⟨true, (text.length : Int) - limit, limit⟩ := by
          unfold detectCharacterOverflow
          rw [if_neg hover]
        rw [heq]
        refine ⟨?_, hlim, ?_, fun h => by cases h⟩
        · show (0 : Int) ≤ (text.length : Int) - limit
          omega
        · show limit ≤ (text.length : Int)
          omega
    | paragraphs =>
      have hred : detectOverflow text .paragraphs limit = detectParagraphOverflow text limit := by
        unfold detectOverflow
        rw [if_neg htext]
      rw [hred]
      by_cases hover : (countParagraphs text : Int) ≤ limit
      · have heq : detectParagraphOverflow text limit = ⟨false, 0, (text.length : Int)⟩ := by
          unfold detectParagraphOverflow
          rw [if_pos hover]
        rw [heq]
        exact ⟨le_refl 0, Int.natCast_nonneg _, le_refl _, fun _ => ⟨rfl, rfl⟩⟩
      · by_cases h0 : limit = 0
        · have heq : detectParagraphOverflow text limit =
              ⟨true, (countParagraphs text : Int), 0⟩ := by
            unfold detectParagraphOverflow
            rw [if_neg hover, if_pos h0]
          rw [heq]
          exact ⟨Int.natCast_nonneg _, le_refl 0, Int.natCast_nonneg _, fun h => by cases h⟩
        · cases hscan : paraScan limit text.length text 0 0 with
          | none =>
            have heq : detectParagraphOverflow text limit =
                ⟨true, (countParagraphs text : Int) - limit, (text.length : Int)⟩ := by
              unfold detectParagraphOverflow
              rw [if_neg hover, if_neg h0, hscan]
            rw [heq]
            refine ⟨?_, Int.natCast_nonneg _, le_refl _, fun h => by cases h⟩
            show (0 : Int) ≤ (countParagraphs text : Int) - limit
            omega
          | some b =>
            have heq : detectParagraphOverflow text limit =
                ⟨true, (countParagraphs text : Int) - limit, (b : Int)⟩ := by
              unfold detectParagraphOverflow
              rw [if_neg hover, if_neg h0, hscan]
            rw [heq]
            have hb := paraScan_bound limit text.length text 0 0 b hscan
            refine ⟨?_, Int.natCast_nonneg _, ?_, fun h => by cases h⟩
            · show (0 : Int) ≤ (countParagraphs text : Int) - limit
              omega
            · show (b : Int) ≤ (text.length : Int)
              omega

/-- C1 (witness): the amended invariant at a two-character text with a
character limit of 1. -/
theorem claim_C1_witness :
    0 ≤ (detectOverflow ("ab".toList) .characters 1).overflowAmount
    ∧ 0 ≤ (detectOverflow ("ab".toList) .characters 1).boundaryCharIndex
    ∧ (detectOverflow ("ab".toList) .characters 1).boundaryCharIndex ≤ (("ab".toList).length : Int)
    ∧ ((detectOverflow ("ab".toList) .characters 1).isOver = false →
        (detectOverflow ("ab".toList) .characters 1).boundaryCharIndex = (("ab".toList).length : Int)
        ∧ (detectOverflow ("ab".toList) .characters 1).overflowAmount = 0) :=
  claim_C1 ("ab".toList) .characters 1 (by norm_num)

/-- C2 (code bug): the paragraph-overflow boundary disagrees with
`countParagraphs` on the text "a\r\rb\n\nc" with limit 1 (which satisfies
0 < 1 < countParagraphs = 2): the scan of `detectParagraphOverflow` treats
the two lone carriage returns as two line endings and hence as a paragraph
break, returning boundary index 3, while under `countParagraphs`'s rule
(separators must match `(?:\r?\n){2,}`, so a lone `\r` is not a line break)
the 2nd paragraph is "c", which starts at index 6. -/
theorem claim_C2 :
    countParagraphs ("a\r\rb\n\nc".toList) = 2
    ∧ detectOverflow ("a\r\rb\n\nc".toList) .paragraphs 1 =
        ⟨true, 1, 3⟩
    ∧ nthParagraphStart ("a\r\rb\n\nc".toList) 2 = some 6
    ∧ (3 : Int) ≠ 6 := by
  refine ⟨by decide, by decide, by decide, by decide⟩

end WriteApp
